import Mathlib

/-! Design pattern skeletons.

A shallow embedding of the class templates of `include/pattern.h` and
`include/singleton.hpp`.  Objects that the C++ code handles through pointers
or references are identified by an address (`Addr`); member functions become
functions that take the receiver (and, where the code calls back into user
code, the state that user code may touch) and return the updated values.
-/

namespace patterns

/-- Address of an object: the identity compared by `&a == &b`. -/
abbrev Addr := Nat

/-! ## Singleton (`singleton.hpp`, `pattern.h`) -/

/-- The function-local `static Derived inst;` of one instantiation
`singleton<Derived>`: `slot` is the fixed storage of the variable, `inst` its
value once the initialisation has run, `constructed` the number of times the
constructor of `Derived` has run for it. -/
structure StaticLocal (Derived : Type) where
  slot : Addr
  inst : Option Derived
  constructed : Nat

/-- State of the static local at program start: storage reserved, not yet
initialised. -/
def StaticLocal.fresh {Derived : Type} (slot : Addr) : StaticLocal Derived :=
  { slot := slot, inst := none, constructed := 0 }

namespace singleton

/-- `singleton<Derived>::instance()`: `static Derived inst; return inst;`.
The declaration initialises the variable the first time control passes through
it and is skipped afterwards; the reference returned designates the variable. -/
def «instance» {Derived : Type} (ctor : Unit → Derived) (s : StaticLocal Derived) :
    Addr × StaticLocal Derived :=
  match s.inst with
  | some _ => (s.slot, s)
  | none => (s.slot, { s with inst := some (ctor ()), constructed := s.constructed + 1 })

end singleton

namespace Singleton

/-- `Singleton<Derived>::GetInstance()` of `pattern.h`:
`static Derived instance; return instance;`. -/
def GetInstance {Derived : Type} (ctor : Unit → Derived) (s : StaticLocal Derived) :
    Addr × StaticLocal Derived :=
  match s.inst with
  | some _ => (s.slot, s)
  | none => (s.slot, { s with inst := some (ctor ()), constructed := s.constructed + 1 })

end Singleton

/-- Runs `n` successive calls of an accessor on the static local and collects
the addresses they return, first call first. -/
def callTimes {Derived : Type}
    (acc : StaticLocal Derived → Addr × StaticLocal Derived) :
    Nat → StaticLocal Derived → List Addr × StaticLocal Derived
  | 0, s => ([], s)
  | n + 1, s =>
    let r := acc s
    let rest := callTimes acc n r.2
    (r.1 :: rest.1, rest.2)

/-- What both accessors do to the static local: they return its slot, leave
the slot where it is, leave the variable initialised, and run the constructor
only when it was not. -/
def IsStaticAccessor {Derived : Type}
    (acc : StaticLocal Derived → Addr × StaticLocal Derived) : Prop :=
  ∀ s, (acc s).1 = s.slot ∧ (acc s).2.slot = s.slot ∧ (acc s).2.inst.isSome = true ∧
    (acc s).2.constructed = s.constructed + (if s.inst.isSome then 0 else 1)

/-! ## Memento (`pattern.h`, namespace `memento`) -/

namespace memento

/-- `Memento<StateType>`: holds a copy of a state. -/
structure Memento (StateType : Type) where
  state_ : StateType

/-- `Memento::GetState() const`: `return state_;`. -/
def Memento.GetState {StateType : Type} (m : Memento StateType) : StateType :=
  m.state_

/-- `Originator<StateType>`: holds the current state. -/
structure Originator (StateType : Type) where
  state_ : StateType

/-- `Originator::SetState(T&& state)`: `state_ = std::forward<T>(state);`. -/
def Originator.SetState {StateType : Type} (_o : Originator StateType) (state : StateType) :
    Originator StateType :=
  { state_ := state }

/-- `Originator::Save() const`: `return Memento<StateType>(state_);`, the
memento constructor copying its argument into `state_`. -/
def Originator.Save {StateType : Type} (o : Originator StateType) : Memento StateType :=
  { state_ := o.state_ }

/-- `Originator::Restore(Memento const& memento)`:
`state_ = memento.GetState();`. -/
def Originator.Restore {StateType : Type} (_o : Originator StateType)
    (memento : Memento StateType) : Originator StateType :=
  { state_ := memento.GetState }

end memento

/-! ## Proxy (`pattern.h`, namespace `proxy`) -/

/-- Exceptions thrown by the library calls modelled here. -/
inductive Exn where
  | bad_function_call
  deriving DecidableEq, Repr

namespace proxy

/-- `Proxy<T>`.  `object_create_method_` is the stored `std::function` (`none`
when it has no target); calling it may touch state of its own, `W`, and yields
a `unique_ptr` (`none` for a null one, `some o` for one owning the object `o`).
`proxied_object_` is the cached `unique_ptr`. -/
structure Proxy (T W : Type) where
  object_create_method_ : Option (W → Option T × W)
  proxied_object_ : Option T

/-- Constructor `Proxy(std::function<std::unique_ptr<T>()> object_create_method)`:
stores the function and initialises `proxied_object_` with `nullptr`. -/
def Proxy.new {T W : Type} (object_create_method : Option (W → Option T × W)) : Proxy T W :=
  { object_create_method_ := object_create_method, proxied_object_ := none }

/-- `Proxy::GetObject()`:
`if (!proxied_object_) proxied_object_ = object_create_method_();`
`return proxied_object_.get();`.  Calling an empty `std::function` throws. -/
def Proxy.GetObject {T W : Type} (p : Proxy T W) (w : W) :
    Except Exn (Option T × Proxy T W × W) :=
  match p.proxied_object_ with
  | some o => .ok (some o, p, w)
  | none =>
    match p.object_create_method_ with
    | none => .error Exn.bad_function_call
    | some create =>
      let r := create w
      .ok (r.1, { p with proxied_object_ := r.1 }, r.2)

/-- Runs `n` successive `GetObject()` calls and collects the pointers returned,
first call first. -/
def Proxy.GetObjectTimes {T W : Type} : Nat → Proxy T W → W →
    Except Exn (List (Option T) × Proxy T W × W)
  | 0, p, w => .ok ([], p, w)
  | n + 1, p, w =>
    match p.GetObject w with
    | .error e => .error e
    | .ok (r, p1, w1) =>
      match Proxy.GetObjectTimes n p1 w1 with
      | .error e => .error e
      | .ok (rs, p2, w2) => .ok (r :: rs, p2, w2)

/-- Instruments a creation method with a counter of its invocations. -/
def counted {T W : Type} (create : W → Option T × W) : W × Nat → Option T × (W × Nat) :=
  fun s => ((create s.1).1, ((create s.1).2, s.2 + 1))

end proxy

/-! ## Flyweight (`pattern.h`, namespace `flyweight`) -/

namespace flyweight

/-- An object made by `std::make_shared<ConcreteState>(internal_state)`.
`addr` identifies the allocation, `concrete` is the most derived type, and
`internal` is the value handed down by
`Flyweight(InternalState internal_state) : T(internal_state)` to the `T`
subobject. -/
structure Object (C K : Type) where
  addr : Addr
  concrete : C
  internal : K
  deriving DecidableEq, Repr

/-- `FlyweightFactory<T, InternalState>`.  `pool_` is the
`unordered_map<InternalState, shared_ptr<T>>` as a list of entries (`none` is a
null `shared_ptr`).  `made` lists every object created so far by `make_shared`
in creation order; the address of a new object is its position in that list. -/
structure FlyweightFactory (C K : Type) where
  pool_ : List (K × Option (Object C K))
  made : List (Object C K)

/-- `FlyweightFactory() = default`: empty pool. -/
def FlyweightFactory.new {C K : Type} : FlyweightFactory C K :=
  { pool_ := [], made := [] }

/-- `pool_.find(k)`: the mapped value of the entry with key `k`, `none` for
`pool_.end()`. -/
def poolFind {K V : Type} [DecidableEq K] : List (K × V) → K → Option V
  | [], _ => none
  | (k1, v) :: rest, k => if k1 = k then some v else poolFind rest k

/-- `pool_[k] = v`: overwrites the entry with key `k`, inserting one when there
is none. -/
def poolAssign {K V : Type} [DecidableEq K] : List (K × V) → K → V → List (K × V)
  | [], k, v => [(k, v)]
  | (k1, v1) :: rest, k, v =>
    if k1 = k then (k1, v) :: rest else (k1, v1) :: poolAssign rest k v

/-- `pool_[k]` as an rvalue: the mapped value, after inserting a
value-initialised (null) entry when there is none. -/
def poolIndex {K V : Type} [DecidableEq K] (pool : List (K × Option V)) (k : K) :
    Option V × List (K × Option V) :=
  match poolFind pool k with
  | some v => (v, pool)
  | none => (none, poolAssign pool k none)

/-- What a constructor that takes a `std::string` by value leaves in the
string it is handed as an rvalue: the string is moved from, and is empty
afterwards. -/
def movedFromString : String → String := fun _ => ""

/-- `FlyweightFactory::Get<ConcreteState>(internal_state)`:
`if (pool_.find(internal_state) == pool_.end())`
`pool_[internal_state] =`
`std::make_shared<ConcreteState>(std::forward<InternalState>(internal_state));`
`return pool_[internal_state];`.
The template argument `ConcreteState` is passed as a value naming the class.
`std::forward<InternalState>` names the class parameter, not the deduced
`InternalState_`, so the key is always handed to the constructor as an rvalue,
and the right operand of the assignment is evaluated before `pool_[...]` on its
left.  `moved` is what the constructor of `ConcreteState` leaves in a key it
receives so: the key itself for a key type that is copied (`id`, as for the
`string_view` keys of the test), the moved-from value for an owning key type
taken by value (`movedFromString`).  The object is built from the key as
passed; the entry is stored, and read back, under the key as left. -/
def FlyweightFactory.Get {C K : Type} [DecidableEq K] (f : FlyweightFactory C K)
    (ConcreteState : C) (moved : K → K) (internal_state : K) :
    Option (Object C K) × FlyweightFactory C K :=
  let s : FlyweightFactory C K × K :=
    match poolFind f.pool_ internal_state with
    | none =>
      let obj : Object C K :=
        { addr := f.made.length, concrete := ConcreteState, internal := internal_state }
      let internal_state1 := moved internal_state
      ({ pool_ := poolAssign f.pool_ internal_state1 (some obj), made := f.made ++ [obj] },
        internal_state1)
    | some _ => (f, internal_state)
  let r := poolIndex s.1.pool_ s.2
  (r.1, { s.1 with pool_ := r.2 })

/-- The factory after a sequence of `Get` requests on a new factory, all for
classes whose constructor treats the key as `moved` says. -/
def requests {C K : Type} [DecidableEq K] (moved : K → K) (rs : List (C × K)) :
    FlyweightFactory C K :=
  rs.foldl (fun f r => (f.Get r.1 moved r.2).2) FlyweightFactory.new

/-- Invariant of a factory: every pool entry holds a non-null pointer to an
object whose internal state is the key of the entry and which is the object
created at its address. -/
def PoolOk {C K : Type} [DecidableEq K] (f : FlyweightFactory C K) : Prop :=
  ∀ k v, poolFind f.pool_ k = some v →
    ∃ obj, v = some obj ∧ obj.internal = k ∧ f.made[obj.addr]? = some obj

end flyweight

/-! ## Observer (`pattern.h`, namespace `observer`) -/

namespace observer

/-- `Subject<T, MessageType>`: `observer_ptrs` is the
`unordered_set<Observer*>`, kept as a list of the addresses it contains (the
iteration order of the set is unspecified; the list order stands for one). -/
structure Subject where
  observer_ptrs : List Addr
  deriving DecidableEq, Repr

/-- `Subject() = default`: no observers. -/
def Subject.new : Subject := { observer_ptrs := [] }

/-- `Subject::Register(observer)`:
`if (observer_ptrs.find(&observer) == observer_ptrs.end())`
`observer_ptrs.emplace(&observer);`. -/
def Subject.Register (s : Subject) (observer : Addr) : Subject :=
  if observer ∈ s.observer_ptrs then s
  else { observer_ptrs := observer :: s.observer_ptrs }

/-- `Subject::Remove(observer)`: erases the element found by
`observer_ptrs.find(&observer)`, when there is one. -/
def Subject.Remove (s : Subject) (observer : Addr) : Subject :=
  if observer ∈ s.observer_ptrs then { observer_ptrs := s.observer_ptrs.erase observer }
  else s

/-- `Subject::Notify(message)`:
`for (auto observer_ptr : observer_ptrs) observer_ptr->Update(message);`.
The result is the list of `Update` calls made: receiver and argument. -/
def Subject.Notify {M : Type} (s : Subject) (message : M) : List (Addr × M) :=
  s.observer_ptrs.map (fun observer_ptr => (observer_ptr, message))

/-- A `Register` or `Remove` call on the subject at address `subject`. -/
inductive Call where
  | Register (subject observer : Addr)
  | Remove (subject observer : Addr)
  deriving DecidableEq, Repr

/-- The subjects of a program, by address. -/
abbrev Subjects := Addr → Subject

/-- Performs one call on the subject it names. -/
def Call.run (c : Call) (w : Subjects) : Subjects :=
  match c with
  | .Register s o => fun a => if a = s then (w s).Register o else w a
  | .Remove s o => fun a => if a = s then (w s).Remove o else w a

/-- Performs a sequence of calls, first call first. -/
def runCalls (cs : List Call) (w : Subjects) : Subjects :=
  cs.foldl (fun w c => c.run w) w

/-- Whether the most recent `Register`/`Remove` call of `cs` on subject `s`
for observer `o` was a `Register` (`init` when there was no such call). -/
def lastWasRegister (s o : Addr) (cs : List Call) (init : Bool) : Bool :=
  cs.foldl (fun acc c =>
    match c with
    | .Register s1 o1 => if s1 = s ∧ o1 = o then true else acc
    | .Remove s1 o1 => if s1 = s ∧ o1 = o then false else acc) init

end observer

/-! ## Command (`pattern.h`, namespace `command`) -/

namespace command

/-- Dynamic types of command objects: the library base `Command<T>` and the
two concrete commands of the tests. -/
inductive CommandType where
  | Command
  | ConCommandA
  | ConCommandB
  deriving DecidableEq, Repr

/-- Virtual `Execute()`, selected by the dynamic type of the object it is called
on; the result is the lines written to `std::cout`.  `Command<T>::Execute` has
the empty body `{}`. -/
def Execute : CommandType → List String
  | .Command => []
  | .ConCommandA => ["executed concrete command A"]
  | .ConCommandB => ["executed concrete command B"]

/-- Copy construction of a `Command<T>` object from an object of dynamic type
`t` (the implicit `Command(Command const&)`): the new object is a `Command<T>`,
whatever the source was. -/
def copyAsCommand (_t : CommandType) : CommandType := CommandType.Command

/-- `CommandList<T>`: `commands_` is a `std::vector<Command<T>>`, a vector of
objects held by value; each element is given by its dynamic type. -/
structure CommandList where
  commands_ : List CommandType
  deriving DecidableEq, Repr

/-- `CommandList() = default`: empty vector. -/
def CommandList.new : CommandList := { commands_ := [] }

/-- `CommandList::Add(Type&& command)`: `commands_.push_back(command);`, which
copy-constructs the new `Command<T>` element from `command`. -/
def CommandList.Add (l : CommandList) (command : CommandType) : CommandList :=
  { commands_ := l.commands_ ++ [copyAsCommand command] }

/-- `Invoker::Invoke(List&& list)`:
`for (auto command : list.commands_) command.Execute();`, each iteration
copying the element into the local `command`.  The result is the output
written and the list afterwards. -/
def Invoke (list : CommandList) : List String × CommandList :=
  ((list.commands_.map (fun c => Execute (copyAsCommand c))).flatten, list)

/-- The list `list1` of the test: commands A, A, B, A, A added in this order. -/
def list1 : CommandList :=
  ((((CommandList.new.Add .ConCommandA).Add .ConCommandA).Add .ConCommandB).Add
    .ConCommandA).Add .ConCommandA

end command

/-! ## Builder (`pattern.h`, namespace `builder`) -/

namespace builder

/-- A builder with own state `B` for products `P`.  `Build` is
`virtual void Build(std::shared_ptr<ProductType>& product)`: it receives the
builder, the pointer held by the caller (by reference, so it returns the
pointer the variable holds afterwards) and the products allocated so far (a
product lives at the address that is its position in the list). -/
structure Builder (B P : Type) where
  Build : B → Addr → List P → B × Addr × List P

/-- `Director::Construct(builder)`:
`auto product{std::make_shared<product_type>()};`
`builder.Build(product);`
`return product;`.
`dflt` is the value-initialised product.  Returns the pointer, the builder and
the products afterwards. -/
def Director.Construct {B P : Type} (dflt : P) (bd : Builder B P) (builder : B)
    (heap : List P) : Addr × B × List P :=
  let product : Addr := heap.length
  let heap1 := heap ++ [dflt]
  let r := bd.Build builder product heap1
  (r.2.1, r.1, r.2.2)

/-- `Meal` of the test: two `string_view` members. -/
structure Meal where
  name : String
  weight : String
  deriving DecidableEq, Repr

/-- A `Meal` as `std::make_shared<Meal>()` leaves it: both views empty. -/
def Meal.dflt : Meal := { name := "", weight := "" }

/-- `ChildrenMealBuilder` of the test: `Build` runs `SetMealName(product)` and
`SetMealWeight(product)`, which assign `product->name` and `product->weight`. -/
def ChildrenMealBuilder : Builder Unit Meal where
  Build := fun b product heap =>
    let heap1 := heap.modify (fun m => { m with name := "children meal" }) product
    let heap2 := heap1.modify (fun m => { m with weight := "200g" }) product
    (b, product, heap2)

/-- A builder that keeps a product of its own, at address `kept`, and hands it
out: `Build` assigns the kept pointer to `product`. -/
def KeepingBuilder : Builder Addr Meal where
  Build := fun kept _product heap => (kept, kept, heap)

end builder

/-! ## Strategy (`pattern.h`, `StrategyInvoker`) -/

/-- `StrategyInvoker<Ret(Args...)>`: `strategy_` is the stored `std::function`
(`none` when it has no target); a call of it may touch the state `W`. -/
structure StrategyInvoker (Args Ret W : Type) where
  strategy_ : Option (Args → W → Ret × W)

/-- `StrategyInvoker::SetStrategy(strategy)`: `strategy_ = strategy;`. -/
def StrategyInvoker.SetStrategy {Args Ret W : Type} (_s : StrategyInvoker Args Ret W)
    (strategy : Option (Args → W → Ret × W)) : StrategyInvoker Args Ret W :=
  { strategy_ := strategy }

/-- `Ret Invoke(Args&&... args)` with body
`strategy_(std::forward<Args>(args)...);`: the call is an expression statement,
its value is discarded, and the body has no `return` statement.  The first
component of the result is the operand of the `return` statement that ended
the call, `none` when control reached the closing brace without one. -/
def StrategyInvoker.Invoke {Args Ret W : Type} (s : StrategyInvoker Args Ret W)
    (args : Args) (w : W) : Except Exn (Option Ret × W) :=
  match s.strategy_ with
  | none => .error Exn.bad_function_call
  | some f => .ok (none, (f args w).2)

/-! ## State (`pattern.h`, namespace `state`) -/

namespace state

/-- The classes of the test: the library base `State<Thread>` and the five
states derived from it. -/
inductive StateClass where
  | State
  | New
  | Runnable
  | Dead
  | Blocked
  | Running
  deriving DecidableEq, Repr

/-- Direct base class, from the class heads (`class New : public
state::State<Thread>` and so on). -/
def directBase : StateClass → Option StateClass
  | .State => none
  | _ => some .State

/-- Whether class `d` is `s` or derives from it, following at most `n` base
links. -/
def derivesFrom (base : StateClass → Option StateClass) :
    Nat → StateClass → StateClass → Bool
  | 0, d, s => decide (d = s)
  | n + 1, d, s =>
    decide (d = s) ||
      match base d with
      | some b => derivesFrom base n b s
      | none => false

/-- `Context<T>`: `state_` is a `unique_ptr<State<T>>`; what matters here is
the dynamic type of the object it owns. -/
structure Context where
  state_ : StateClass
  deriving DecidableEq, Repr

/-- `Context() : state_(std::make_unique<State<T>>()) {}`. -/
def Context.new : Context := { state_ := .State }

/-- `Context::Castable<StateType>() const`:
`return dynamic_cast<StateType*>(state_.get());`, non-null exactly when the
dynamic type of the held object is `StateType` or derives from it. -/
def Context.Castable (c : Context) (StateType : StateClass) : Bool :=
  derivesFrom directBase 6 c.state_ StateType

/-- `Context::Set<StateType>(StateType state)` with body
`state_.reset(std::make_unique<StateType>());`.  `unique_ptr::reset` takes a raw
`State<T>*`, and a `unique_ptr<StateType>` does not convert to one, so the body
is ill-formed for every `StateType`: no call of `Set` yields a context. -/
def Context.Set (_c : Context) (_StateType : StateClass) : Option Context := none

end state

/-! ## Bridge (`pattern.h`, namespace `bridge`) -/

namespace bridge

/-- `Bridge<T>`: holds `T object_`. -/
structure Bridge (T : Type) where
  object_ : T

/-- `Bridge::Get()`: `return object_;`. -/
def Bridge.Get {T : Type} (b : Bridge T) : T := b.object_

/-- `Bridge::Set(T object)`: `object_ = object;`. -/
def Bridge.Set {T : Type} (_b : Bridge T) (object : T) : Bridge T :=
  { object_ := object }

end bridge

/-! ## Caretaker (`pattern.h`, namespace `memento`) -/

namespace memento

/-- `Caretaker<StateType>`: `memento_` is a `unique_ptr<Memento<StateType>>`,
`none` for a null pointer. -/
structure Caretaker (StateType : Type) where
  memento_ : Option (Memento StateType)

/-- `Caretaker() : memento_(nullptr) {}`. -/
def Caretaker.new {StateType : Type} : Caretaker StateType := { memento_ := none }

/-- `Caretaker::SetMemento(T&& memento)`:
`memento_ = std::make_unique<Memento<StateType>>(memento);`, the new object
being copy-constructed from `memento`. -/
def Caretaker.SetMemento {StateType : Type} (_c : Caretaker StateType)
    (memento : Memento StateType) : Caretaker StateType :=
  { memento_ := some { state_ := memento.state_ } }

/-- `Caretaker::GetMemento() const`: `return *memento_.get();`, the memento the
pointer designates; there is none to return while the pointer is null. -/
def Caretaker.GetMemento {StateType : Type} (c : Caretaker StateType) :
    Option (Memento StateType) :=
  c.memento_

end memento

/-! ## Mediator (`pattern.h`, namespace `mediator`) -/

namespace mediator

/-- `Mediator<T>`: `colleagues_` is the `unordered_set<Colleague<T>*>`, kept as
the list of the addresses it contains. -/
structure Mediator where
  colleagues_ : List Addr
  deriving DecidableEq, Repr

/-- `Mediator() = default`: empty set. -/
def Mediator.new : Mediator := { colleagues_ := [] }

/-- `Mediator::OnReceiveMessage()` of the base class: `return true;`. -/
def Mediator.OnReceiveMessage (m : Mediator) : Bool × Mediator := (true, m)

/-- `Mediator::SendMessage(sender, recver, message...)`:
`if (auto iter = colleagues_.find(recver); iter != colleagues_.end())`
`if (OnReceiveMessage()) recver->OnReceiveMessage();`.
`OnReceiveMessage` is the final overrider of the virtual member of the
mediator, which may change the mediator.  The result lists the colleagues whose
`OnReceiveMessage()` was called, and the mediator afterwards. -/
def Mediator.SendMessage {Msg : Type} (m : Mediator)
    (OnReceiveMessage : Mediator → Bool × Mediator) (_sender recver : Addr)
    (_message : Msg) : List Addr × Mediator :=
  if recver ∈ m.colleagues_ then
    let r := OnReceiveMessage m
    if r.1 then ([recver], r.2) else ([], r.2)
  else ([], m)

/-- `Colleague::SendMessage(mediator, colleague, message...)`, called on the
colleague at address `this`:
`mediator.SendMessage(this, &colleague, std::forward<Message>(message)...);`. -/
def Colleague.SendMessage {Msg : Type} (this : Addr) (mediator : Mediator)
    (OnReceiveMessage : Mediator → Bool × Mediator) (colleague : Addr) (message : Msg) :
    List Addr × Mediator :=
  mediator.SendMessage OnReceiveMessage this colleague message

/-- The operations that `Mediator` and `Colleague` offer on a mediator once it
is constructed. -/
inductive Op (Msg : Type) where
  | MediatorSendMessage (sender recver : Addr) (message : Msg)
  | ColleagueSendMessage (this colleague : Addr) (message : Msg)
  | MediatorOnReceiveMessage

/-- Performs one operation, the virtual `OnReceiveMessage` being the one of the
base class; returns the `Colleague::OnReceiveMessage()` calls made and the
mediator afterwards. -/
def Op.run {Msg : Type} (op : Op Msg) (m : Mediator) : List Addr × Mediator :=
  match op with
  | .MediatorSendMessage sender recver message =>
    m.SendMessage Mediator.OnReceiveMessage sender recver message
  | .ColleagueSendMessage this colleague message =>
    Colleague.SendMessage this m Mediator.OnReceiveMessage colleague message
  | .MediatorOnReceiveMessage => ([], m.OnReceiveMessage.2)

/-- Performs a sequence of operations, first one first, collecting the
`Colleague::OnReceiveMessage()` calls made. -/
def runOps {Msg : Type} : List (Op Msg) → Mediator → List Addr × Mediator
  | [], m => ([], m)
  | op :: ops, m =>
    let r := op.run m
    let rest := runOps ops r.2
    (r.1 ++ rest.1, rest.2)

end mediator

/-! ## Chain of responsibility (`pattern.h`, `Handler`) -/

namespace handler

/-- Value of the member `Handler<T>* next_`.  The class declares no
constructor and no initialiser for it: it is indeterminate in a
default-initialised handler and null in a value-initialised one. -/
inductive NextPtr where
  | indeterminate
  | null
  | to (next : Addr)
  deriving DecidableEq, Repr

/-- `Handler<T>`. -/
structure Handler where
  next_ : NextPtr
  deriving DecidableEq, Repr

/-- A handler made by `TeamLeader{}`, `Manager{}`, `Ceo{}` as in the test: the
classes have a default constructor that is not user-provided (`= default` on
its first declaration), so the empty braces zero-initialise the object before
the constructor runs. -/
def Handler.valueInit : Handler := { next_ := .null }

/-- A handler made by default-initialisation (`Ceo ceo;`). -/
def Handler.defaultInit : Handler := { next_ := .indeterminate }

/-- `Handler::SetNextHandler(Handler<T>& next)`: `next_ = &next;`. -/
def Handler.SetNextHandler (_h : Handler) (next : Addr) : Handler :=
  { next_ := .to next }

/-- The handlers of a program, by address. -/
abbrev Handlers := Addr → Handler

/-- The call `h.SetNextHandler(n)` on the handler at address `h`. -/
def callSetNextHandler (w : Handlers) (h n : Addr) : Handlers :=
  fun a => if a = h then (w h).SetNextHandler n else w a

/-- The chain of the test, with `teamleader`, `manager`, `ceo` at addresses
`0`, `1`, `2`: `teamleader.SetNextHandler(manager);`
`manager.SetNextHandler(ceo);`. -/
def testChain : Handlers :=
  callSetNextHandler (callSetNextHandler (fun _ => Handler.valueInit) 0 1) 1 2

end handler

/-! ## Composite (`pattern.h`, namespace `composite`) -/

namespace composite

/-- `std::runtime_error` with its `what()` message. -/
structure runtime_error where
  what : String
  deriving DecidableEq, Repr

/-- `Leaf<T>`: no members. -/
inductive Leaf where
  | mk
  deriving DecidableEq, Repr

/-- `Leaf::Add(component)`: `throw std::runtime_error("Cannot add to a leaf");`. -/
def Leaf.Add (_l : Leaf) (_component : Addr) : Except runtime_error Leaf :=
  .error { what := "Cannot add to a leaf" }

/-- `Leaf::Remove(component)`:
`throw std::runtime_error("Cannot add to a leaf");`. -/
def Leaf.Remove (_l : Leaf) (_component : Addr) : Except runtime_error Leaf :=
  .error { what := "Cannot add to a leaf" }

/-- `Composite<T>`: `children_` is the `vector<shared_ptr<Component<T>>>`, each
pointer given by the address it holds. -/
structure Composite where
  children_ : List Addr
  deriving DecidableEq, Repr

/-- `std::find(children_.begin(), children_.end(), component)` as a position:
that of the first element equal to `component`, the length of the list for
`children_.end()`. -/
def find : List Addr → Addr → Nat
  | [], _ => 0
  | a :: rest, component => if a = component then 0 else find rest component + 1

/-- `Composite::Add(component)`: `children_.push_back(component);`. -/
def Composite.Add (c : Composite) (component : Addr) : Composite :=
  { children_ := c.children_ ++ [component] }

/-- `Composite::Remove(component)`:
`if (auto it = std::find(...); it != children_.end()) children_.erase(it);`. -/
def Composite.Remove (c : Composite) (component : Addr) : Composite :=
  let it := find c.children_ component
  if it ≠ c.children_.length then { children_ := c.children_.eraseIdx it } else c

end composite

/-! ## Proxy: worlds reached by the creation method -/

namespace proxy

/-- The state after `j` successive invocations of the creation method. -/
def afterInvocations {T W : Type} (create : W → Option T × W) : Nat → W → W
  | 0, w => w
  | j + 1, w => afterInvocations create j (create w).2

end proxy

end patterns

/-! # Theorems -/

namespace patterns

/-! ## Singleton -/

theorem instance_isStaticAccessor {Derived : Type} (ctor : Unit → Derived) :
    IsStaticAccessor (singleton.«instance» ctor) := by
  intro s
  cases h : s.inst <;> simp [singleton.«instance», h]

theorem GetInstance_isStaticAccessor {Derived : Type} (ctor : Unit → Derived) :
    IsStaticAccessor (Singleton.GetInstance ctor) := by
  intro s
  cases h : s.inst <;> simp [Singleton.GetInstance, h]

theorem callTimes_length {Derived : Type}
    (acc : StaticLocal Derived → Addr × StaticLocal Derived) (n : Nat)
    (s : StaticLocal Derived) : (callTimes acc n s).1.length = n := by
  induction n generalizing s with
  | zero => rfl
  | succ n ih => simp [callTimes, ih]

theorem callTimes_addr {Derived : Type}
    (acc : StaticLocal Derived → Addr × StaticLocal Derived) (hacc : IsStaticAccessor acc)
    (n : Nat) (s : StaticLocal Derived) : ∀ a ∈ (callTimes acc n s).1, a = s.slot := by
  induction n generalizing s with
  | zero => intro a ha; simp [callTimes] at ha
  | succ n ih =>
    intro a ha
    simp only [callTimes, List.mem_cons] at ha
    rcases ha with ha | ha
    · rw [ha]; exact (hacc s).1
    · rw [ih (acc s).2 a ha]; exact (hacc s).2.1

theorem callTimes_constructed_of_isSome {Derived : Type}
    (acc : StaticLocal Derived → Addr × StaticLocal Derived) (hacc : IsStaticAccessor acc)
    (n : Nat) (s : StaticLocal Derived) (hs : s.inst.isSome = true) :
    (callTimes acc n s).2.constructed = s.constructed := by
  induction n generalizing s with
  | zero => rfl
  | succ n ih =>
    simp only [callTimes]
    rw [ih (acc s).2 (hacc s).2.2.1, (hacc s).2.2.2, hs]
    simp

theorem callTimes_constructed_fresh {Derived : Type}
    (acc : StaticLocal Derived → Addr × StaticLocal Derived) (hacc : IsStaticAccessor acc)
    (n : Nat) (slot : Addr) :
    (callTimes acc n (StaticLocal.fresh slot)).2.constructed = min n 1 := by
  cases n with
  | zero => rfl
  | succ n =>
    simp only [callTimes]
    rw [callTimes_constructed_of_isSome acc hacc n _ (hacc _).2.2.1, (hacc _).2.2.2]
    simp [StaticLocal.fresh]

/-- C1: over any number `n` of calls of `instance()` (and of `GetInstance()`)
for one `Derived`, starting from program start, every call returns the same
address (any two returned addresses are equal) and the constructor of the
instance has run at most once: not at all for `n = 0`, once otherwise. -/
theorem C1_singleton_same_instance {Derived : Type} (ctor : Unit → Derived) (slot : Addr)
    (n : Nat) :
    ((callTimes (singleton.«instance» ctor) n (StaticLocal.fresh slot)).1.length = n ∧
      (∀ a ∈ (callTimes (singleton.«instance» ctor) n (StaticLocal.fresh slot)).1,
        ∀ b ∈ (callTimes (singleton.«instance» ctor) n (StaticLocal.fresh slot)).1, a = b) ∧
      (callTimes (singleton.«instance» ctor) n (StaticLocal.fresh slot)).2.constructed ≤ 1 ∧
      (callTimes (singleton.«instance» ctor) n (StaticLocal.fresh slot)).2.constructed
        = min n 1) ∧
    ((callTimes (Singleton.GetInstance ctor) n (StaticLocal.fresh slot)).1.length = n ∧
      (∀ a ∈ (callTimes (Singleton.GetInstance ctor) n (StaticLocal.fresh slot)).1,
        ∀ b ∈ (callTimes (Singleton.GetInstance ctor) n (StaticLocal.fresh slot)).1, a = b) ∧
      (callTimes (Singleton.GetInstance ctor) n (StaticLocal.fresh slot)).2.constructed ≤ 1 ∧
      (callTimes (Singleton.GetInstance ctor) n (StaticLocal.fresh slot)).2.constructed
        = min n 1) := by
  have key : ∀ acc : StaticLocal Derived → Addr × StaticLocal Derived, IsStaticAccessor acc →
      ((callTimes acc n (StaticLocal.fresh slot)).1.length = n ∧
      (∀ a ∈ (callTimes acc n (StaticLocal.fresh slot)).1,
        ∀ b ∈ (callTimes acc n (StaticLocal.fresh slot)).1, a = b) ∧
      (callTimes acc n (StaticLocal.fresh slot)).2.constructed ≤ 1 ∧
      (callTimes acc n (StaticLocal.fresh slot)).2.constructed = min n 1) := by
    intro acc hacc
    refine ⟨callTimes_length acc n _, ?_, ?_, callTimes_constructed_fresh acc hacc n slot⟩
    · intro a ha b hb
      rw [callTimes_addr acc hacc n _ a ha, callTimes_addr acc hacc n _ b hb]
    · rw [callTimes_constructed_fresh acc hacc n slot]
      exact Nat.min_le_right n 1
  exact ⟨key _ (instance_isStaticAccessor ctor), key _ (GetInstance_isStaticAccessor ctor)⟩

/-! ## Memento -/

namespace memento

theorem foldl_SetState_Restore {StateType : Type} (later : List StateType)
    (o : Originator StateType) (m : Memento StateType) :
    ((later.foldl Originator.SetState o).Restore m).state_ = m.GetState := rfl

/-- C2: after `SetState(s)`, `m = Save()`, `SetState(s2)`, `Restore(m)` the
state of the originator is `s`; `m.GetState()` is `s` and stays so whatever
states the originator is set to afterwards (restoring `m` after any sequence
`later` of `SetState` calls gives `s` again); and the originator that made the
memento still holds `s`. -/
theorem C2_memento_round_trip {StateType : Type} (o : Originator StateType)
    (s s2 : StateType) (later : List StateType) :
    (((o.SetState s).SetState s2).Restore (o.SetState s).Save).state_ = s ∧
    (o.SetState s).Save.GetState = s ∧
    ((later.foldl Originator.SetState (o.SetState s)).Restore (o.SetState s).Save).state_ = s ∧
    (o.SetState s).state_ = s := by
  refine ⟨rfl, rfl, ?_, rfl⟩
  rw [foldl_SetState_Restore]
  rfl

end memento

/-! ## Proxy -/

namespace proxy

theorem GetObjectTimes_cached {T W : Type} (n : Nat) (p : Proxy T W) (w : W) (o : T)
    (hp : p.proxied_object_ = some o) :
    Proxy.GetObjectTimes n p w = .ok (List.replicate n (some o), p, w) := by
  induction n with
  | zero => rfl
  | succ n ih =>
    simp only [Proxy.GetObjectTimes, Proxy.GetObject, hp, ih, List.replicate_succ]

/-- C3: for a creation method that always returns a non-null object, building
the proxy leaves `proxied_object_` null and runs nothing (after zero calls the
counter of invocations is still `0`), and over any `n ≥ 1` calls of
`GetObject()` the creation method is invoked exactly once, every call
returning the object `o` made by that invocation. -/
theorem C3_proxy_lazy_creation {T W : Type} (create : W → Option T × W)
    (hcreate : ∀ w, (create w).1 ≠ none) (w : W) (n : Nat) (hn : 1 ≤ n) :
    (Proxy.new (some (counted create))).proxied_object_ = none ∧
    (∃ p, Proxy.GetObjectTimes 0 (Proxy.new (some (counted create))) (w, 0)
        = .ok ([], p, (w, 0))) ∧
    ∃ o p, (create w).1 = some o ∧
      Proxy.GetObjectTimes n (Proxy.new (some (counted create))) (w, 0)
        = .ok (List.replicate n (some o), p, ((create w).2, 1)) := by
  refine ⟨rfl, ⟨_, rfl⟩, ?_⟩
  obtain ⟨m, rfl⟩ : ∃ m, n = m + 1 := ⟨n - 1, by omega⟩
  cases hc : (create w).1 with
  | none => exact absurd hc (hcreate w)
  | some o =>
    refine ⟨o, { object_create_method_ := some (counted create), proxied_object_ := some o },
      rfl, ?_⟩
    simp only [Proxy.GetObjectTimes, Proxy.GetObject, Proxy.new, counted, hc]
    rw [GetObjectTimes_cached m _ _ o rfl]
    simp [List.replicate_succ]

/-- Witness for C3: a creation method that numbers the objects it makes, called
three times through the proxy. -/
theorem C3_proxy_lazy_creation_witness :
    (Proxy.new (some (counted (fun k : Nat => (some k, k + 1))))).proxied_object_ = none ∧
    (∃ p, Proxy.GetObjectTimes 0 (Proxy.new (some (counted (fun k : Nat => (some k, k + 1)))))
        (7, 0) = .ok ([], p, (7, 0))) ∧
    ∃ o p, ((fun k : Nat => (some k, k + 1)) 7).1 = some o ∧
      Proxy.GetObjectTimes 3 (Proxy.new (some (counted (fun k : Nat => (some k, k + 1)))))
        (7, 0) = .ok (List.replicate 3 (some o), p, (((fun k : Nat => (some k, k + 1)) 7).2, 1)) :=
  C3_proxy_lazy_creation (fun k : Nat => (some k, k + 1)) (fun _ => by simp) 7 3 (by decide)

end proxy

/-! ## Flyweight -/

namespace flyweight

theorem poolFind_poolAssign_self {K V : Type} [DecidableEq K] (pool : List (K × V)) (k : K)
    (v : V) : poolFind (poolAssign pool k v) k = some v := by
  induction pool with
  | nil => simp [poolAssign, poolFind]
  | cons e rest ih =>
    obtain ⟨k1, v1⟩ := e
    by_cases h : k1 = k <;> simp [poolAssign, poolFind, h, ih]

theorem poolFind_poolAssign_other {K V : Type} [DecidableEq K] (pool : List (K × V))
    (k k2 : K) (v : V) (hk : k2 ≠ k) :
    poolFind (poolAssign pool k v) k2 = poolFind pool k2 := by
  induction pool with
  | nil =>
    have : ¬ k = k2 := fun h => hk h.symm
    simp [poolAssign, poolFind, this]
  | cons e rest ih =>
    obtain ⟨k1, v1⟩ := e
    by_cases h : k1 = k
    · subst h
      have : ¬ k1 = k2 := fun h => hk h.symm
      simp [poolAssign, poolFind, this]
    · by_cases h2 : k1 = k2
      · subst h2
        simp [poolAssign, poolFind, h]
      · simp [poolAssign, poolFind, h, h2, ih]

theorem Get_hit {C K : Type} [DecidableEq K] (f : FlyweightFactory C K) (c : C) (k : K)
    (v : Option (Object C K)) (h : poolFind f.pool_ k = some v) : f.Get c id k = (v, f) := by
  simp [FlyweightFactory.Get, h, poolIndex]

theorem Get_miss {C K : Type} [DecidableEq K] (f : FlyweightFactory C K) (c : C) (k : K)
    (h : poolFind f.pool_ k = none) :
    f.Get c id k = (some { addr := f.made.length, concrete := c, internal := k },
      { pool_ := poolAssign f.pool_ k (some { addr := f.made.length, concrete := c, internal := k }),
        made := f.made ++ [{ addr := f.made.length, concrete := c, internal := k }] }) := by
  simp [FlyweightFactory.Get, h, poolIndex, poolFind_poolAssign_self]

theorem PoolOk_new {C K : Type} [DecidableEq K] : PoolOk (FlyweightFactory.new : FlyweightFactory C K) := by
  intro k v h
  simp [FlyweightFactory.new, poolFind] at h

theorem PoolOk_Get {C K : Type} [DecidableEq K] (f : FlyweightFactory C K) (c : C) (k : K)
    (hf : PoolOk f) : PoolOk (f.Get c id k).2 := by
  cases h : poolFind f.pool_ k with
  | some v => rw [Get_hit f c k v h]; exact hf
  | none =>
    rw [Get_miss f c k h]
    intro k2 v2 h2
    by_cases hk : k2 = k
    · subst hk
      rw [poolFind_poolAssign_self] at h2
      refine ⟨_, (Option.some.inj h2).symm, rfl, ?_⟩
      simp
    · rw [poolFind_poolAssign_other _ _ _ _ hk] at h2
      obtain ⟨obj, hv, hi, hm⟩ := hf k2 v2 h2
      refine ⟨obj, hv, hi, ?_⟩
      have hlt : obj.addr < f.made.length := by
        rcases Nat.lt_or_ge obj.addr f.made.length with h | h
        · exact h
        · rw [List.getElem?_eq_none h] at hm; cases hm
      simp only []
      rw [List.getElem?_append_left hlt]
      exact hm

theorem requests_snoc {C K : Type} [DecidableEq K] (rs : List (C × K)) (r : C × K) :
    requests id (rs ++ [r]) = ((requests id rs).Get r.1 id r.2).2 := by
  simp [requests, List.foldl_append]

theorem PoolOk_requests {C K : Type} [DecidableEq K] (rs : List (C × K)) :
    PoolOk (requests id rs) := by
  induction rs using List.reverseRecOn with
  | nil => exact PoolOk_new
  | append_singleton l a ih => rw [requests_snoc]; exact PoolOk_Get _ _ _ ih

theorem poolFind_Get {C K : Type} [DecidableEq K] (f : FlyweightFactory C K) (c : C) (k k2 : K) :
    (poolFind (f.Get c id k).2.pool_ k2 ≠ none) ↔ (k2 = k ∨ poolFind f.pool_ k2 ≠ none) := by
  cases h : poolFind f.pool_ k with
  | some v =>
    rw [Get_hit f c k v h]
    constructor
    · intro h2; exact Or.inr h2
    · rintro (rfl | h2)
      · simp [h]
      · exact h2
  | none =>
    rw [Get_miss f c k h]
    by_cases hk : k2 = k
    · subst hk; simp [poolFind_poolAssign_self]
    · simp [poolFind_poolAssign_other _ _ _ _ hk, hk]

theorem poolFind_requests {C K : Type} [DecidableEq K] (rs : List (C × K)) (k : K) :
    (poolFind (requests id rs).pool_ k ≠ none) ↔ k ∈ rs.map Prod.snd := by
  induction rs using List.reverseRecOn with
  | nil => simp [requests, FlyweightFactory.new, poolFind]
  | append_singleton l a ih =>
    rw [requests_snoc, poolFind_Get, ih]
    simp
    tauto


theorem Get_value {C K : Type} [DecidableEq K] (f : FlyweightFactory C K) (c : C) (k : K) :
    poolFind (f.Get c id k).2.pool_ k = some (f.Get c id k).1 := by
  cases h : poolFind f.pool_ k with
  | some v => rw [Get_hit f c k v h]; exact h
  | none => rw [Get_miss f c k h]; exact poolFind_poolAssign_self _ _ _

theorem Get_other {C K : Type} [DecidableEq K] (f : FlyweightFactory C K) (c : C) (k k2 : K)
    (hk : k2 ≠ k) : poolFind (f.Get c id k).2.pool_ k2 = poolFind f.pool_ k2 := by
  cases h : poolFind f.pool_ k with
  | some v => rw [Get_hit f c k v h]
  | none => rw [Get_miss f c k h]; exact poolFind_poolAssign_other _ _ _ _ hk

/-- C4, as the code runs it.  For a key that the constructor leaves as it
was (`id`): on a factory that has served any sequence `rs` of requests,
`Get<C>(k)` returns a non-null shared object `obj` whose internal state is `k`;
a second `Get<C>(k)` returns the same object and constructs nothing; the first
call constructs exactly `obj` (of class `C`) when `k` was never requested before
and constructs nothing when it was; and a request for any other key `k2`
returns an object at another address.  For a `std::string` key that the
constructor moves from: on a new factory the first `Get<C>("12, 2")` returns
the object at address `0`, stored under the empty key, and the second
`Get<C>("12, 2")` misses, constructs a second object and returns that one, at
address `1`. -/
theorem C4_flyweight_sharing_lost_on_moved_key {C K : Type} [DecidableEq K]
    (rs : List (C × K)) (c c2 : C) (k : K) :
    (∃ obj, ((requests id rs).Get c id k).1 = some obj ∧
      (((requests id rs).Get c id k).2.Get c id k).1 = some obj ∧
      obj.internal = k ∧
      (((requests id rs).Get c id k).2.Get c id k).2.made = ((requests id rs).Get c id k).2.made ∧
      (k ∉ rs.map Prod.snd →
        ((requests id rs).Get c id k).2.made = (requests id rs).made ++ [obj] ∧ obj.concrete = c) ∧
      (k ∈ rs.map Prod.snd → ((requests id rs).Get c id k).2.made = (requests id rs).made) ∧
      ∀ k2, k2 ≠ k → ∃ obj2, (((requests id rs).Get c id k).2.Get c2 id k2).1 = some obj2 ∧
        obj2.internal = k2 ∧ obj2.addr ≠ obj.addr) ∧
    ((FlyweightFactory.new : FlyweightFactory Nat String).Get 0 movedFromString "12, 2").1
      = some { addr := 0, concrete := 0, internal := "12, 2" } ∧
    ((FlyweightFactory.new : FlyweightFactory Nat String).Get 0 movedFromString
        "12, 2").2.pool_
      = [("", some { addr := 0, concrete := 0, internal := "12, 2" })] ∧
    (((FlyweightFactory.new : FlyweightFactory Nat String).Get 0 movedFromString
        "12, 2").2.Get 0 movedFromString "12, 2").1
      = some { addr := 1, concrete := 0, internal := "12, 2" } ∧
    (((FlyweightFactory.new : FlyweightFactory Nat String).Get 0 movedFromString
        "12, 2").2.Get 0 movedFromString "12, 2").2.made.length = 2 := by
  refine ⟨?_, by decide, by decide, by decide, by decide⟩
  have hf := PoolOk_requests rs
  have hf1 := PoolOk_Get (requests id rs) c k hf
  have hv := Get_value (requests id rs) c k
  obtain ⟨obj, hobj, hint, hmade⟩ := hf1 k _ hv
  refine ⟨obj, hobj, ?_, hint, ?_, ?_, ?_, ?_⟩
  · rw [Get_hit _ c k _ hv]; exact hobj
  · rw [Get_hit _ c k _ hv]
  · intro hk
    have hnone : poolFind (requests id rs).pool_ k = none := by
      by_contra hne
      exact hk ((poolFind_requests rs k).1 hne)
    rw [Get_miss _ c k hnone] at hobj ⊢
    have := Option.some.inj hobj
    subst this
    exact ⟨rfl, rfl⟩
  · intro hk
    have hne := (poolFind_requests rs k).2 hk
    cases h : poolFind (requests id rs).pool_ k with
    | none => exact absurd h hne
    | some v => rw [Get_hit _ c k v h]
  · intro k2 hk2
    have hf2 := PoolOk_Get ((requests id rs).Get c id k).2 c2 k2 hf1
    have hv2 := Get_value ((requests id rs).Get c id k).2 c2 k2
    obtain ⟨obj2, hobj2, hint2, hmade2⟩ := hf2 k2 _ hv2
    have hkeep : poolFind (((requests id rs).Get c id k).2.Get c2 id k2).2.pool_ k
        = some ((requests id rs).Get c id k).1 := by
      rw [Get_other _ c2 k2 k (fun h => hk2 h.symm)]; exact hv
    obtain ⟨obj1, hobj1, _, hmade1⟩ := hf2 k _ hkeep
    have h11 : obj1 = obj := by
      rw [hobj] at hobj1; exact (Option.some.inj hobj1).symm
    subst h11
    refine ⟨obj2, hobj2, hint2, ?_⟩
    intro haddr
    rw [haddr, hmade1] at hmade2
    have := Option.some.inj hmade2
    subst this
    exact hk2 (hint2.symm.trans hint)

end flyweight

/-! ## Observer -/

namespace observer

theorem Register_nodup (s : Subject) (o : Addr) (h : s.observer_ptrs.Nodup) :
    (s.Register o).observer_ptrs.Nodup := by
  unfold Subject.Register
  split
  · exact h
  · exact List.nodup_cons.2 ⟨by assumption, h⟩

theorem Remove_nodup (s : Subject) (o : Addr) (h : s.observer_ptrs.Nodup) :
    (s.Remove o).observer_ptrs.Nodup := by
  unfold Subject.Remove
  split
  · exact h.erase o
  · exact h

theorem mem_Register (s : Subject) (o a : Addr) :
    a ∈ (s.Register o).observer_ptrs ↔ a = o ∨ a ∈ s.observer_ptrs := by
  unfold Subject.Register
  split
  · constructor
    · exact Or.inr
    · rintro (rfl | h)
      · assumption
      · exact h
  · simp

theorem Register_Register (s : Subject) (o : Addr) :
    (s.Register o).Register o = s.Register o := by
  have h : o ∈ (s.Register o).observer_ptrs := (mem_Register s o o).2 (Or.inl rfl)
  generalize s.Register o = t at h ⊢
  simp [Subject.Register, h]

theorem mem_Remove (s : Subject) (o a : Addr) (h : s.observer_ptrs.Nodup) :
    a ∈ (s.Remove o).observer_ptrs ↔ a ≠ o ∧ a ∈ s.observer_ptrs := by
  unfold Subject.Remove
  split
  · exact h.mem_erase_iff
  · constructor
    · intro ha
      exact ⟨fun hao => by subst hao; contradiction, ha⟩
    · exact fun ha => ha.2

theorem run_nodup (c : Call) (w : Subjects) (hw : ∀ a, (w a).observer_ptrs.Nodup) :
    ∀ a, (c.run w a).observer_ptrs.Nodup := by
  intro a
  cases c with
  | Register s o =>
    simp only [Call.run]
    split
    · exact Register_nodup _ _ (hw s)
    · exact hw a
  | Remove s o =>
    simp only [Call.run]
    split
    · exact Remove_nodup _ _ (hw s)
    · exact hw a

theorem mem_run (c : Call) (w : Subjects) (hw : ∀ a, (w a).observer_ptrs.Nodup)
    (s o : Addr) :
    decide (o ∈ (c.run w s).observer_ptrs) =
      lastWasRegister s o [c] (decide (o ∈ (w s).observer_ptrs)) := by
  cases c with
  | Register s1 o1 =>
    simp only [Call.run, lastWasRegister, List.foldl_cons, List.foldl_nil]
    by_cases hs : s = s1
    · subst hs
      by_cases ho : o1 = o
      · subst ho; simp [mem_Register]
      · have : ¬ o = o1 := fun h => ho h.symm
        simp [mem_Register, ho, this]
    · have : ¬ s1 = s := fun h => hs h.symm
      simp [hs, this]
  | Remove s1 o1 =>
    simp only [Call.run, lastWasRegister, List.foldl_cons, List.foldl_nil]
    by_cases hs : s = s1
    · subst hs
      by_cases ho : o1 = o
      · subst ho; simp [mem_Remove _ _ _ (hw s)]
      · have : ¬ o = o1 := fun h => ho h.symm
        simp [mem_Remove _ _ _ (hw s), ho, this]
    · have : ¬ s1 = s := fun h => hs h.symm
      simp [hs, this]

theorem lastWasRegister_cons (s o : Addr) (c : Call) (cs : List Call) (init : Bool) :
    lastWasRegister s o (c :: cs) init = lastWasRegister s o cs (lastWasRegister s o [c] init) :=
  rfl

theorem runCalls_spec (cs : List Call) (w : Subjects) (hw : ∀ a, (w a).observer_ptrs.Nodup)
    (s o : Addr) :
    (runCalls cs w s).observer_ptrs.Nodup ∧
    (o ∈ (runCalls cs w s).observer_ptrs ↔
      lastWasRegister s o cs (decide (o ∈ (w s).observer_ptrs)) = true) := by
  induction cs generalizing w with
  | nil => simp [runCalls, lastWasRegister, hw s]
  | cons c cs ih =>
    have h1 := ih (c.run w) (run_nodup c w hw)
    refine ⟨h1.1, ?_⟩
    rw [lastWasRegister_cons, ← mem_run c w hw s o]
    exact h1.2

theorem countP_Notify {M : Type} (s : Subject) (h : s.observer_ptrs.Nodup) (o : Addr) (m : M) :
    (s.Notify m).countP (fun c => decide (c.1 = o)) = if o ∈ s.observer_ptrs then 1 else 0 := by
  obtain ⟨l⟩ := s
  simp only [Subject.Notify] at h ⊢
  induction l with
  | nil => simp
  | cons a l ih =>
    have hn := List.nodup_cons.1 h
    by_cases hao : a = o
    · subst hao
      simp [List.countP_cons, ih hn.2, hn.1]
    · have : ¬ o = a := fun h => hao h.symm
      simp [List.countP_cons, ih hn.2, hao, this]


/-- C5: after any sequence `cs` of `Register` and `Remove` calls on the
subjects of a program, all of which start without observers, `Notify(m)` on
subject `s` calls `Update` once on observer `o` when the most recent
`Register`/`Remove` call on `s` for `o` was a `Register`, and not at all
otherwise (never registered, or removed since); every call it makes passes `m`;
registering `o` once more changes nothing, so `o` is still notified once; and a
call on `s` leaves every other subject as it was. -/
theorem C5_observer_notify {M : Type} (cs : List Call) (s o : Addr) (m : M) :
    ((runCalls cs (fun _ => Subject.new) s).Notify m).countP (fun c => decide (c.1 = o))
      = (if lastWasRegister s o cs false then 1 else 0) ∧
    (∀ c ∈ (runCalls cs (fun _ => Subject.new) s).Notify m, c.2 = m) ∧
    (((runCalls cs (fun _ => Subject.new) s).Register o).Register o
        = (runCalls cs (fun _ => Subject.new) s).Register o ∧
      ((((runCalls cs (fun _ => Subject.new) s).Register o).Register o).Notify m).countP
        (fun c => decide (c.1 = o)) = 1) ∧
    (∀ s2, s2 ≠ s →
      (Call.Register s o).run (runCalls cs (fun _ => Subject.new)) s2
        = runCalls cs (fun _ => Subject.new) s2 ∧
      (Call.Remove s o).run (runCalls cs (fun _ => Subject.new)) s2
        = runCalls cs (fun _ => Subject.new) s2) := by
  have hw : ∀ a, ((fun _ => Subject.new : Subjects) a).observer_ptrs.Nodup := by
    intro a; simp [Subject.new]
  have hspec := runCalls_spec cs (fun _ => Subject.new) hw s o
  have hreg : o ∈ ((runCalls cs (fun _ => Subject.new) s).Register o).observer_ptrs :=
    (mem_Register _ _ _).2 (Or.inl rfl)
  have hregreg := Register_Register (runCalls cs (fun _ => Subject.new) s) o
  refine ⟨?_, ?_, ⟨hregreg, ?_⟩, ?_⟩
  · rw [countP_Notify _ hspec.1]
    have h2 := hspec.2
    simp only [Subject.new, List.not_mem_nil, decide_False] at h2
    by_cases h : o ∈ (runCalls cs (fun _ => Subject.new) s).observer_ptrs
    · simp [h, h2.1 h]
    · have : lastWasRegister s o cs false ≠ true := fun hl => h (h2.2 hl)
      simp [h, this]
  · intro c hc
    simp only [Subject.Notify, List.mem_map] at hc
    obtain ⟨a, _, rfl⟩ := hc
    rfl
  · rw [hregreg, countP_Notify _ (Register_nodup _ _ hspec.1)]
    simp [hreg]
  · intro s2 hs2
    simp [Call.run, hs2]

end observer

/-! ## Command -/

namespace command

theorem foldl_Add_commands (cs : List CommandType) (l : CommandList) :
    (cs.foldl CommandList.Add l).commands_ = l.commands_ ++ cs.map copyAsCommand := by
  induction cs generalizing l with
  | nil => simp
  | cons c cs ih => simp [ih, CommandList.Add]

theorem Invoke_output_nil (l : CommandList) : (Invoke l).1 = [] := by
  obtain ⟨cs⟩ := l
  simp only [Invoke]
  induction cs with
  | nil => rfl
  | cons c cs ih => simp [copyAsCommand, Execute]

/-- C6, as the code runs it: a list built by `Add` calls with commands
`c1..cn` holds `n` elements in insertion order, each a plain `Command<T>` copy
of the command added, and `Invoke` leaves the list as it is; so `Invoke` runs
`Command<T>::Execute`, which writes nothing, once per element.  For `list1` of
the test the output is empty, where the overriding `Execute` functions of the
commands added would have written the lines A, A, B, A, A. -/
theorem C6_command_invoke_runs_base_Execute (cs : List CommandType) :
    (cs.foldl CommandList.Add CommandList.new).commands_
      = List.replicate cs.length CommandType.Command ∧
    (Invoke (cs.foldl CommandList.Add CommandList.new)).1 = [] ∧
    (Invoke (cs.foldl CommandList.Add CommandList.new)).2
      = cs.foldl CommandList.Add CommandList.new ∧
    (Invoke list1).1 = [] ∧
    ([CommandType.ConCommandA, .ConCommandA, .ConCommandB, .ConCommandA,
        .ConCommandA].map Execute).flatten
      = ["executed concrete command A", "executed concrete command A",
          "executed concrete command B", "executed concrete command A",
          "executed concrete command A"] ∧
    (Invoke list1).1 ≠ ([CommandType.ConCommandA, .ConCommandA, .ConCommandB, .ConCommandA,
        .ConCommandA].map Execute).flatten := by
  refine ⟨?_, Invoke_output_nil _, rfl, Invoke_output_nil _, by decide, ?_⟩
  · rw [foldl_Add_commands]
    simp only [CommandList.new, List.nil_append]
    induction cs with
    | nil => rfl
    | cons c cs ih => simp [ih, copyAsCommand, List.replicate_succ]
  · rw [Invoke_output_nil]
    decide

end command

/-! ## Builder -/

namespace builder

theorem modify_append_length {P : Type} (f : P → P) (heap : List P) (x : P) :
    (heap ++ [x]).modify f heap.length = heap ++ [f x] := by
  induction heap with
  | nil => rfl
  | cons a l ih =>
    show a :: (l ++ [x]).modify f l.length = a :: (l ++ [f x])
    rw [ih]

theorem Construct_ChildrenMealBuilder (heap : List Meal) :
    Director.Construct Meal.dflt ChildrenMealBuilder () heap
      = (heap.length, (), heap ++ [{ name := "children meal", weight := "200g" }]) := by
  simp only [Director.Construct, ChildrenMealBuilder]
  rw [modify_append_length, modify_append_length]

/-- C7, counterexample: a builder whose `Build` assigns a product it keeps (at
address `0`) to the pointer it is handed.  Two successive `Construct` calls
both return address `0`, a product that existed before either call, so the
second call does not return a new product. -/
theorem C7_builder_reseat_counterexample :
    (Director.Construct Meal.dflt KeepingBuilder 0 [{ name := "kept", weight := "1kg" }]).1 = 0 ∧
    (Director.Construct Meal.dflt KeepingBuilder
      (Director.Construct Meal.dflt KeepingBuilder 0 [{ name := "kept", weight := "1kg" }]).2.1
      (Director.Construct Meal.dflt KeepingBuilder 0
        [{ name := "kept", weight := "1kg" }]).2.2).1 = 0 ∧
    (Director.Construct Meal.dflt KeepingBuilder 0 [{ name := "kept", weight := "1kg" }]).1
      < [({ name := "kept", weight := "1kg" } : Meal)].length := by
  decide

/-- C7, amended: `Construct` allocates a value-initialised product at an
address not in use before the call, runs `Build` on the pointer to it, and
returns the pointer, builder and products that `Build` leaves.  When `Build`
leaves the pointer as it was handed, the product returned is the newly
allocated one: its address differs from that of every product allocated before
the call.  For `ChildrenMealBuilder` of the test the result is the new product,
with name "children meal" and weight "200g", and the earlier products are
untouched. -/
theorem C7_builder_construct {B P : Type} (dflt : P) (bd : Builder B P) (b : B)
    (heap : List P) (earlier : List Meal) :
    Director.Construct dflt bd b heap
      = ((bd.Build b heap.length (heap ++ [dflt])).2.1,
         (bd.Build b heap.length (heap ++ [dflt])).1,
         (bd.Build b heap.length (heap ++ [dflt])).2.2) ∧
    heap[heap.length]? = none ∧
    (heap ++ [dflt])[heap.length]? = some dflt ∧
    ((bd.Build b heap.length (heap ++ [dflt])).2.1 = heap.length →
      (Director.Construct dflt bd b heap).1 = heap.length ∧
      ∀ a, a < heap.length → (Director.Construct dflt bd b heap).1 ≠ a) ∧
    (Director.Construct Meal.dflt ChildrenMealBuilder () earlier).1 = earlier.length ∧
    (Director.Construct Meal.dflt ChildrenMealBuilder () earlier).2.2[earlier.length]?
      = some { name := "children meal", weight := "200g" } ∧
    (Director.Construct Meal.dflt ChildrenMealBuilder () earlier).2.2.take earlier.length
      = earlier := by
  refine ⟨rfl, by simp, by simp, ?_, ?_, ?_, ?_⟩
  · intro h
    refine ⟨h, ?_⟩
    intro a ha
    show (bd.Build b heap.length (heap ++ [dflt])).2.1 ≠ a
    rw [h]
    exact Nat.ne_of_gt ha
  · rw [Construct_ChildrenMealBuilder]
  · rw [Construct_ChildrenMealBuilder]; simp
  · rw [Construct_ChildrenMealBuilder]; simp

/-- Witness for C7: the test, on a store holding one earlier meal. -/
theorem C7_builder_construct_witness :
    (Director.Construct Meal.dflt ChildrenMealBuilder ()
        [{ name := "kept", weight := "1kg" }]).1 = 1 ∧
    (Director.Construct Meal.dflt ChildrenMealBuilder ()
        [{ name := "kept", weight := "1kg" }]).2.2
      = [{ name := "kept", weight := "1kg" }, { name := "children meal", weight := "200g" }] ∧
    ∀ a, a < 1 → (Director.Construct Meal.dflt ChildrenMealBuilder ()
        [{ name := "kept", weight := "1kg" }]).1 ≠ a :=
  ⟨by decide, by decide,
    ((C7_builder_construct Meal.dflt ChildrenMealBuilder ()
      [{ name := "kept", weight := "1kg" }] []).2.2.2.1 (by decide)).2⟩

end builder

/-! ## Strategy -/

/-- C8, as the code runs it: after `SetStrategy(f)` (also when another strategy
`g` was set before), `Invoke(args)` evaluates `f` on `args` once, the state
afterwards being the one `f` leaves, and ends without a `return` statement, so
no value of `f` reaches the caller.  With `f` adding one to its argument and
logging the call, `Invoke(41)` logs one call and returns no value, where the
result of `f` is `42`. -/
theorem C8_strategy_invoke_discards_result {Args Ret W : Type}
    (s : StrategyInvoker Args Ret W) (f g : Args → W → Ret × W) (args : Args) (w : W) :
    (s.SetStrategy (some f)).Invoke args w = .ok (none, (f args w).2) ∧
    ((s.SetStrategy (some g)).SetStrategy (some f)).Invoke args w = .ok (none, (f args w).2) ∧
    (s.SetStrategy (some f)).Invoke args w ≠ .ok (some (f args w).1, (f args w).2) ∧
    (({ strategy_ := none } : StrategyInvoker Int Int (List Int)).SetStrategy
        (some (fun x log => (x + 1, log ++ [x])))).Invoke 41 [] = .ok (none, [41]) ∧
    ((fun (x : Int) (log : List Int) => (x + 1, log ++ [x])) 41 []).1 = 42 := by
  refine ⟨rfl, rfl, ?_, rfl, rfl⟩
  intro h
  simp [StrategyInvoker.Invoke, StrategyInvoker.SetStrategy] at h

/-! ## State -/

namespace state

/-- C9, as the code runs it: `Castable<S>()` is true exactly when the class of
the held state is `S` or derives from `S`; a new context holds a plain
`State<T>`, so it is castable to `State<T>` and to none of `New`, `Runnable`,
`Dead`, `Blocked`, `Running`; and `Set` yields no context, so no context that
holds a `Running` state is reached by it. -/
theorem C9_state_castable_without_Set (c : Context) (S : StateClass) :
    (c.Castable S = true ↔ (c.state_ = S ∨ directBase c.state_ = some S)) ∧
    (Context.new.Castable S = true ↔ S = StateClass.State) ∧
    Context.new.Castable .New = false ∧ Context.new.Castable .Running = false ∧
    Context.new.Castable .Blocked = false ∧
    c.Set S = none ∧
    (Context.new.Set .Running).map (fun c1 => c1.Castable .Running) ≠ some true := by
  refine ⟨?_, ?_, by decide, by decide, by decide, rfl, by decide⟩
  · obtain ⟨d⟩ := c
    cases d <;> cases S <;> decide
  · cases S <;> decide

end state

/-! ## Bridge -/

namespace bridge

/-- C10: `Get()` after `Set(x)` returns `x`, and after any sequence of `Set`
calls that ends with `Set(x)` it returns `x`, the value of the most recent
call. -/
theorem C10_bridge_get_after_set {T : Type} (b : Bridge T) (x : T) (xs : List T) :
    (b.Set x).Get = x ∧ ((xs ++ [x]).foldl Bridge.Set b).Get = x := by
  refine ⟨rfl, ?_⟩
  rw [List.foldl_append]
  rfl

end bridge

/-! ## Caretaker -/

namespace memento

theorem foldl_SetMemento_snoc {StateType : Type} (ms : List (Memento StateType))
    (m : Memento StateType) (c : Caretaker StateType) :
    (ms ++ [m]).foldl Caretaker.SetMemento c
      = (ms.foldl Caretaker.SetMemento c).SetMemento m := by
  rw [List.foldl_append]
  rfl

/-- C11: after `SetMemento(m)`, `GetMemento()` returns a memento whose
`GetState()` is `m.GetState()`; after several `SetMemento` calls it is the one
stored last; and the copy stored from `originator.Save()` still holds the saved
state `s` after any later `SetState` calls on the originator, so restoring from
it brings `s` back. -/
theorem C11_caretaker_stores_copy {StateType : Type} (c : Caretaker StateType)
    (m : Memento StateType) (ms : List (Memento StateType)) (o : Originator StateType)
    (s : StateType) (later : List StateType) :
    (c.SetMemento m).GetMemento.map Memento.GetState = some m.GetState ∧
    ((ms ++ [m]).foldl Caretaker.SetMemento c).GetMemento.map Memento.GetState
      = some m.GetState ∧
    (c.SetMemento (o.SetState s).Save).GetMemento.map Memento.GetState = some s ∧
    ((c.SetMemento (o.SetState s).Save).GetMemento.map
        (fun saved => ((later.foldl Originator.SetState (o.SetState s)).Restore saved).state_))
      = some s := by
  refine ⟨rfl, ?_, rfl, rfl⟩
  rw [foldl_SetMemento_snoc]
  rfl

end memento

/-! ## Mediator -/

namespace mediator

theorem SendMessage_new {Msg : Type} (m : Mediator) (hm : m.colleagues_ = [])
    (hook : Mediator → Bool × Mediator) (sender recver : Addr) (message : Msg) :
    m.SendMessage hook sender recver message = ([], m) := by
  simp [Mediator.SendMessage, hm]

theorem run_of_empty {Msg : Type} (op : Op Msg) (m : Mediator) (hm : m.colleagues_ = []) :
    op.run m = ([], m) := by
  cases op with
  | MediatorSendMessage sender recver message =>
    exact SendMessage_new m hm Mediator.OnReceiveMessage sender recver message
  | ColleagueSendMessage this colleague message =>
    exact SendMessage_new m hm Mediator.OnReceiveMessage this colleague message
  | MediatorOnReceiveMessage => rfl

theorem runOps_of_empty {Msg : Type} (ops : List (Op Msg)) (m : Mediator)
    (hm : m.colleagues_ = []) : runOps ops m = ([], m) := by
  induction ops with
  | nil => rfl
  | cons op ops ih => simp [runOps, run_of_empty op m hm, ih]

/-- C12: `SendMessage(sender, recver, message)` calls
`recver->OnReceiveMessage()` once when `recver` is in `colleagues_` and the
mediator's own `OnReceiveMessage()` returns true, and makes no call otherwise;
the outcome is the same for any other sender and message; the colleague's
`SendMessage` forwards to it; and in the test, where the room has no
colleagues, the message of `user1` to `user2` is not delivered. -/
theorem C12_mediator_delivery {Msg : Type} (m : Mediator)
    (hook : Mediator → Bool × Mediator) (sender sender2 recver : Addr)
    (message message2 : Msg) :
    (m.SendMessage hook sender recver message).1
      = (if recver ∈ m.colleagues_ ∧ (hook m).1 = true then [recver] else []) ∧
    m.SendMessage hook sender recver message = m.SendMessage hook sender2 recver message2 ∧
    Colleague.SendMessage sender m hook recver message
      = m.SendMessage hook sender recver message ∧
    (Colleague.SendMessage 1 Mediator.new Mediator.OnReceiveMessage 2 (114514 : Nat)).1
      = [] := by
  refine ⟨?_, rfl, rfl, rfl⟩
  unfold Mediator.SendMessage
  by_cases h1 : recver ∈ m.colleagues_
  · by_cases h2 : (hook m).1 = true
    · simp [h1, h2]
    · simp [h1, h2]
  · simp [h1]

/-- C17: a mediator reached from construction by any sequence of operations of
`Mediator` and `Colleague` has an empty `colleagues_`, none of those operations
called a colleague's `OnReceiveMessage()`, and a `SendMessage` on it, for any
sender, receiver and message and whatever the mediator's own
`OnReceiveMessage()` would do, calls no receiver and leaves the mediator as it
is. -/
theorem C17_mediator_never_delivers {Msg : Type} (ops : List (Op Msg))
    (hook : Mediator → Bool × Mediator) (sender recver : Addr) (message : Msg) :
    (runOps ops Mediator.new).2.colleagues_ = [] ∧
    (runOps ops Mediator.new).1 = [] ∧
    (runOps ops Mediator.new).2.SendMessage hook sender recver message
      = ([], (runOps ops Mediator.new).2) ∧
    Colleague.SendMessage sender (runOps ops Mediator.new).2 hook recver message
      = ([], (runOps ops Mediator.new).2) := by
  have h := runOps_of_empty ops Mediator.new rfl
  rw [h]
  exact ⟨rfl, rfl, SendMessage_new Mediator.new rfl hook sender recver message,
    SendMessage_new Mediator.new rfl hook sender recver message⟩

end mediator

/-! ## Chain of responsibility -/

namespace handler

/-- C13: after `h.SetNextHandler(n)` the successor of `h` is `n`, a later
`h.SetNextHandler(n2)` replaces it by `n2`, and every other handler keeps the
successor it had; in the chain of the test the successor of `teamleader` is
`manager`, that of `manager` is `ceo`, and `ceo` has a null `next_`. -/
theorem C13_handler_set_next (w : Handlers) (h n n2 : Addr) :
    (callSetNextHandler w h n h).next_ = NextPtr.to n ∧
    (callSetNextHandler (callSetNextHandler w h n) h n2 h).next_ = NextPtr.to n2 ∧
    (∀ a, a ≠ h → callSetNextHandler w h n a = w a) ∧
    (testChain 0).next_ = NextPtr.to 1 ∧
    (testChain 1).next_ = NextPtr.to 2 ∧
    (testChain 2).next_ = NextPtr.null := by
  refine ⟨?_, ?_, ?_, by decide, by decide, by decide⟩
  · simp [callSetNextHandler, Handler.SetNextHandler]
  · simp [callSetNextHandler, Handler.SetNextHandler]
  · intro a ha
    simp [callSetNextHandler, ha]

end handler

/-! ## Composite -/

namespace composite

theorem find_le_length (l : List Addr) (x : Addr) : find l x ≤ l.length := by
  induction l with
  | nil => simp [find]
  | cons a l ih =>
    by_cases h : a = x
    · simp [find, h]
    · simp [find, h, ih]

theorem find_eq_length_iff (l : List Addr) (x : Addr) : find l x = l.length ↔ x ∉ l := by
  induction l with
  | nil => simp [find]
  | cons a l ih =>
    by_cases h : a = x
    · subst h; simp [find]
    · have h2 : ¬ x = a := fun e => h e.symm
      simp [find, h, h2, ih]

theorem Remove_eq_erase (c : Composite) (x : Addr) :
    (c.Remove x).children_ = c.children_.erase x := by
  obtain ⟨l⟩ := c
  induction l with
  | nil => simp [Composite.Remove, find]
  | cons a l ih =>
    by_cases h : a = x
    · subst h
      simp [Composite.Remove, find]
    · have hne : find l x + 1 ≠ l.length + 1 ↔ find l x ≠ l.length := by omega
      simp only [Composite.Remove, find, h, if_false, List.length_cons, hne] at ih ⊢
      rw [List.erase_cons_tail (by simpa using h)]
      by_cases hf : find l x = l.length
      · simp only [hf, ne_eq, not_true_eq_false, if_false] at ih ⊢
        rw [← ih]
      · simp only [hf, ne_eq, not_false_eq_true, if_true] at ih ⊢
        rw [List.eraseIdx_cons_succ, ih]

theorem Remove_first_occurrence (pre post : List Addr) (x : Addr) (hpre : x ∉ pre) :
    (Composite.mk (pre ++ x :: post)).Remove x = { children_ := pre ++ post } := by
  have h := Remove_eq_erase { children_ := pre ++ x :: post } x
  simp only [] at h
  rw [List.erase_append_right _ hpre, List.erase_cons_head] at h
  cases hr : (Composite.mk (pre ++ x :: post)).Remove x
  rw [hr] at h
  simp only [] at h
  rw [h]

/-- C15: `Add(c)` appends `c` at the end of the children (also when it is
already there); `Remove(c)` takes out the first occurrence of `c` and keeps all
other children in their order; when `c` is not a child it leaves the composite
as it is.  The length drops by one when `c` was present and stays otherwise,
one occurrence of `c` fewer remains, and the occurrences of any other child
are unchanged. -/
theorem C15_composite_children (c : Composite) (x : Addr) (pre post : List Addr) :
    (c.Add x).children_ = c.children_ ++ [x] ∧
    ((c.Add x).Add x).children_ = c.children_ ++ [x, x] ∧
    (x ∉ c.children_ → c.Remove x = c) ∧
    (x ∉ pre → (Composite.mk (pre ++ x :: post)).Remove x = { children_ := pre ++ post }) ∧
    (x ∈ c.children_ → (c.Remove x).children_.length + 1 = c.children_.length) ∧
    ((c.Remove x).children_.length + 1 = c.children_.length → x ∈ c.children_) ∧
    (c.Remove x).children_.count x = c.children_.count x - 1 ∧
    (∀ y, y ≠ x → (c.Remove x).children_.count y = c.children_.count y) := by
  refine ⟨rfl, by simp [Composite.Add], ?_, Remove_first_occurrence pre post x, ?_, ?_, ?_, ?_⟩
  · intro hx
    have := (find_eq_length_iff c.children_ x).2 hx
    simp [Composite.Remove, this]
  · intro hx
    rw [Remove_eq_erase, List.length_erase_of_mem hx]
    have : 0 < c.children_.length := List.length_pos_of_mem hx
    omega
  · intro hlen
    by_contra hx
    rw [Remove_eq_erase, List.erase_of_not_mem hx] at hlen
    omega
  · rw [Remove_eq_erase, List.count_erase_self]
  · intro y hy
    rw [Remove_eq_erase, List.count_erase_of_ne hy]

/-- C16: `Leaf::Add` and `Leaf::Remove` fail for every component with a
`runtime_error` whose message is "Cannot add to a leaf", the same for both, and
never return normally. -/
theorem C16_leaf_always_throws (l : Leaf) (component : Addr) :
    l.Add component = .error { what := "Cannot add to a leaf" } ∧
    l.Remove component = .error { what := "Cannot add to a leaf" } ∧
    l.Add component = l.Remove component ∧
    (∀ r, l.Add component ≠ .ok r) ∧
    (∀ r, l.Remove component ≠ .ok r) := by
  refine ⟨rfl, rfl, rfl, ?_, ?_⟩
  · intro r h
    simp [Leaf.Add] at h
  · intro r h
    simp [Leaf.Remove] at h

end composite

/-! ## Flyweight: the pool -/

namespace flyweight

theorem poolFind_eq_none_iff {K V : Type} [DecidableEq K] (pool : List (K × V)) (k : K) :
    poolFind pool k = none ↔ k ∉ pool.map Prod.fst := by
  induction pool with
  | nil => simp [poolFind]
  | cons e rest ih =>
    obtain ⟨k1, v1⟩ := e
    by_cases h : k1 = k
    · subst h; simp [poolFind]
    · have h2 : ¬ k = k1 := fun e => h e.symm
      simp only [poolFind, h, if_false, ih, List.map_cons, List.mem_cons, h2, false_or]

theorem poolAssign_of_none {K V : Type} [DecidableEq K] (pool : List (K × V)) (k : K) (v : V)
    (h : poolFind pool k = none) : poolAssign pool k v = pool ++ [(k, v)] := by
  induction pool with
  | nil => rfl
  | cons e rest ih =>
    obtain ⟨k1, v1⟩ := e
    by_cases hk : k1 = k
    · subst hk; simp [poolFind] at h
    · simp only [poolFind, hk, if_false] at h
      simp [poolAssign, hk, ih h]

theorem keys_nodup_Get {C K : Type} [DecidableEq K] (f : FlyweightFactory C K) (c : C) (k : K)
    (hf : (f.pool_.map Prod.fst).Nodup) : ((f.Get c id k).2.pool_.map Prod.fst).Nodup := by
  cases h : poolFind f.pool_ k with
  | some v => rw [Get_hit f c k v h]; exact hf
  | none =>
    rw [Get_miss f c k h, poolAssign_of_none _ _ _ h]
    simp only [List.map_append, List.map_cons, List.map_nil]
    refine List.Nodup.append hf (List.nodup_singleton k) ?_
    intro a ha hk
    rw [List.mem_singleton] at hk
    subst hk
    exact (poolFind_eq_none_iff _ _).1 h ha

theorem keys_nodup_requests {C K : Type} [DecidableEq K] (rs : List (C × K)) :
    ((requests id rs).pool_.map Prod.fst).Nodup := by
  induction rs using List.reverseRecOn with
  | nil => simp [requests, FlyweightFactory.new]
  | append_singleton l a ih => rw [requests_snoc]; exact keys_nodup_Get _ _ _ ih

theorem mem_keys_requests {C K : Type} [DecidableEq K] (rs : List (C × K)) (k : K) :
    k ∈ (requests id rs).pool_.map Prod.fst ↔ k ∈ rs.map Prod.snd := by
  rw [← poolFind_requests rs k, ne_eq, poolFind_eq_none_iff, not_not]

theorem requests_append {C K : Type} [DecidableEq K] (rs later : List (C × K)) :
    requests id (rs ++ later) = later.foldl (fun f r => (f.Get r.1 id r.2).2) (requests id rs) := by
  simp [requests, List.foldl_append]

theorem poolFind_Get_keeps {C K : Type} [DecidableEq K] (f : FlyweightFactory C K) (c : C)
    (k k2 : K) (v : Option (Object C K)) (h : poolFind f.pool_ k2 = some v) :
    poolFind (f.Get c id k).2.pool_ k2 = some v := by
  by_cases hk : k2 = k
  · subst hk
    rw [Get_hit f c k2 v h]; exact h
  · rw [Get_other f c k k2 hk]; exact h

theorem poolFind_foldl_keeps {C K : Type} [DecidableEq K] (later : List (C × K))
    (f : FlyweightFactory C K) (k : K) (v : Option (Object C K))
    (h : poolFind f.pool_ k = some v) :
    poolFind (later.foldl (fun f r => (f.Get r.1 id r.2).2) f).pool_ k = some v := by
  induction later generalizing f with
  | nil => exact h
  | cons r later ih => exact ih _ (poolFind_Get_keeps f r.1 r.2 k v h)

/-- C14, as the code runs it.  For keys that the constructor leaves as they
were (`id`): on any pool, `Get(k)` for a key that is not in it adds one entry,
for `k`, holding the object returned, and every entry that was there still maps
to the same object; `Get(k)` for a key that is in it leaves the factory as it
is; so after any sequence `rs` of requests on a new factory the keys of the
pool are the keys requested, each once.  For `std::string` keys that the
constructor moves from: the requests "12, 2", "18, 18", "12, 2" on a new
factory construct three objects and leave one entry, under the empty key, which
the second request maps from the first object to the second; no entry exists
for either key requested. -/
theorem C14_flyweight_pool_frame_lost_on_moved_key {C K : Type} [DecidableEq K]
    (f : FlyweightFactory C K) (rs : List (C × K)) (c : C) (k : K) :
    (poolFind f.pool_ k = none →
      ∃ obj, (f.Get c id k).1 = some obj ∧ (f.Get c id k).2.pool_ = f.pool_ ++ [(k, some obj)] ∧
        ∀ k2 v, poolFind f.pool_ k2 = some v → poolFind (f.Get c id k).2.pool_ k2 = some v) ∧
    (poolFind f.pool_ k ≠ none → (f.Get c id k).2 = f) ∧
    ((requests id rs).pool_.map Prod.fst).Nodup ∧
    (∀ k2, k2 ∈ (requests id rs).pool_.map Prod.fst ↔ k2 ∈ rs.map Prod.snd) ∧
    (∀ k2, ((requests id rs).pool_.map Prod.fst).count k2
      = if k2 ∈ rs.map Prod.snd then 1 else 0) ∧
    (requests id rs).pool_.length = (rs.map Prod.snd).dedup.length ∧
    (requests movedFromString [((0 : Nat), "12, 2"), (1, "18, 18"), (0, "12, 2")]).made.length
      = 3 ∧
    (requests movedFromString [((0 : Nat), "12, 2"), (1, "18, 18"), (0, "12, 2")]).pool_
      = [("", some { addr := 2, concrete := 0, internal := "12, 2" })] ∧
    poolFind (requests movedFromString [((0 : Nat), "12, 2")]).pool_ ""
      = some (some { addr := 0, concrete := 0, internal := "12, 2" }) ∧
    poolFind (requests movedFromString [((0 : Nat), "12, 2"), (1, "18, 18")]).pool_ ""
      = some (some { addr := 1, concrete := 1, internal := "18, 18" }) ∧
    poolFind (requests movedFromString [((0 : Nat), "12, 2"), (1, "18, 18")]).pool_ "12, 2"
      = none := by
  refine ⟨?_, ?_, keys_nodup_requests rs, mem_keys_requests rs, ?_, ?_,
    by decide, by decide, by decide, by decide, by decide⟩
  · intro h
    refine ⟨{ addr := f.made.length, concrete := c, internal := k }, ?_, ?_, ?_⟩
    · rw [Get_miss f c k h]
    · rw [Get_miss f c k h, poolAssign_of_none _ _ _ h]
    · intro k2 v hv
      exact poolFind_Get_keeps f c k k2 v hv
  · intro h
    cases hv : poolFind f.pool_ k with
    | none => exact absurd hv h
    | some v => rw [Get_hit f c k v hv]
  · intro k2
    by_cases hk : k2 ∈ rs.map Prod.snd
    · rw [if_pos hk]
      exact List.count_eq_one_of_mem (keys_nodup_requests rs) ((mem_keys_requests rs k2).2 hk)
    · rw [if_neg hk]
      exact List.count_eq_zero_of_not_mem (fun h => hk ((mem_keys_requests rs k2).1 h))
  · have hperm : ((requests id rs).pool_.map Prod.fst).Perm (rs.map Prod.snd).dedup :=
      (List.perm_ext_iff_of_nodup (keys_nodup_requests rs) (List.nodup_dedup _)).2
        (fun a => by rw [mem_keys_requests, List.mem_dedup])
    have := hperm.length_eq
    simpa using this

/-- C19, as the code runs it.  For a key that the constructor leaves as it
was (`id`): when `k` is first requested as `Get<A>(k)` (no earlier request `rs`
named `k`), then after any later requests a `Get<B>(k)` returns the object made
by that first request, whose class is `A`, and leaves the factory as it is: no
`B` is constructed.  For a `std::string` key that the constructor moves from:
after `Get<A>("12, 2")` on a new factory (class `0`), `Get<B>("12, 2")` (class
`1`) misses, constructs a `B` and returns it. -/
theorem C19_flyweight_type_not_fixed_on_moved_key {C K : Type} [DecidableEq K]
    (rs later : List (C × K)) (A B : C) (k : K) (hfirst : k ∉ rs.map Prod.snd) :
    (∃ obj, ((requests id rs).Get A id k).1 = some obj ∧ obj.concrete = A ∧
      ((requests id (rs ++ (A, k) :: later)).Get B id k).1 = some obj ∧
      ((requests id (rs ++ (A, k) :: later)).Get B id k).2
        = requests id (rs ++ (A, k) :: later) ∧
      ((requests id (rs ++ (A, k) :: later)).Get B id k).2.made
        = (requests id (rs ++ (A, k) :: later)).made) ∧
    ((requests movedFromString [((0 : Nat), "12, 2")]).Get 1 movedFromString "12, 2").1
      = some { addr := 1, concrete := 1, internal := "12, 2" } ∧
    ((requests movedFromString [((0 : Nat), "12, 2")]).Get 1 movedFromString "12, 2").2.made
      = [{ addr := 0, concrete := 0, internal := "12, 2" },
         { addr := 1, concrete := 1, internal := "12, 2" }] := by
  refine ⟨?_, by decide, by decide⟩
  have hnone : poolFind (requests id rs).pool_ k = none := by
    by_contra hne
    exact hfirst ((poolFind_requests rs k).1 hne)
  have hget := Get_miss (requests id rs) A k hnone
  have hval := Get_value (requests id rs) A k
  have hkeep := poolFind_foldl_keeps later ((requests id rs).Get A id k).2 k _ hval
  have hreq : requests id (rs ++ (A, k) :: later)
      = later.foldl (fun f r => (f.Get r.1 id r.2).2) ((requests id rs).Get A id k).2 := by
    rw [requests_append]; rfl
  rw [← hreq] at hkeep
  refine ⟨{ addr := (requests id rs).made.length, concrete := A, internal := k }, ?_, rfl, ?_, ?_, ?_⟩
  · rw [hget]
  · rw [Get_hit _ B k _ hkeep, hget]
  · rw [Get_hit _ B k _ hkeep]
  · rw [Get_hit _ B k _ hkeep]

/-- Witness for C19: with keys left as they were, the key of the test is first
requested as a black piece (class `0`), another key follows, then the first key
is requested as a white piece (class `1`). -/
theorem C19_flyweight_type_not_fixed_on_moved_key_witness :
    (∃ obj, ((requests id ([] : List (Nat × String))).Get 0 id "12, 2").1 = some obj ∧
      obj.concrete = 0 ∧
      ((requests id ([] ++ (0, "12, 2") :: [(1, "18, 18")])).Get 1 id "12, 2").1 = some obj ∧
      ((requests id ([] ++ (0, "12, 2") :: [(1, "18, 18")])).Get 1 id "12, 2").2
        = requests id ([] ++ (0, "12, 2") :: [(1, "18, 18")]) ∧
      ((requests id ([] ++ (0, "12, 2") :: [(1, "18, 18")])).Get 1 id "12, 2").2.made
        = (requests id ([] ++ (0, "12, 2") :: [(1, "18, 18")])).made) ∧
    ((requests movedFromString [((0 : Nat), "12, 2")]).Get 1 movedFromString "12, 2").1
      = some { addr := 1, concrete := 1, internal := "12, 2" } ∧
    ((requests movedFromString [((0 : Nat), "12, 2")]).Get 1 movedFromString "12, 2").2.made
      = [{ addr := 0, concrete := 0, internal := "12, 2" },
         { addr := 1, concrete := 1, internal := "12, 2" }] :=
  C19_flyweight_type_not_fixed_on_moved_key [] [(1, "18, 18")] 0 1 "12, 2" (by simp)

end flyweight

/-! ## Proxy with a failing creation method -/

namespace proxy

theorem GetObjectTimes_until_created {T W : Type} (create : W → Option T × W) (o : T)
    (k : Nat) : ∀ (n : Nat) (w : W) (c : Nat),
    (∀ j, j < k → (create (afterInvocations create j w)).1 = none) →
    (create (afterInvocations create k w)).1 = some o →
    ∃ p, Proxy.GetObjectTimes n (Proxy.new (some (counted create))) (w, c)
      = .ok (List.replicate (min n k) none ++ List.replicate (n - k) (some o), p,
          (afterInvocations create (min n (k + 1)) w, c + min n (k + 1))) := by
  induction k with
  | zero =>
    intro n w c _ hsome
    cases n with
    | zero => exact ⟨_, rfl⟩
    | succ n =>
      simp only [afterInvocations] at hsome
      refine ⟨{ object_create_method_ := some (counted create), proxied_object_ := some o }, ?_⟩
      simp only [Proxy.GetObjectTimes, Proxy.GetObject, Proxy.new, counted, hsome]
      rw [GetObjectTimes_cached n _ _ o rfl]
      simp [List.replicate_succ, afterInvocations]
  | succ k ih =>
    intro n w c hnull hsome
    cases n with
    | zero =>
      exact ⟨Proxy.new (some (counted create)), by simp [Proxy.GetObjectTimes, afterInvocations]⟩
    | succ n =>
      have h0 : (create w).1 = none := hnull 0 (Nat.succ_pos k)
      obtain ⟨p, hp⟩ := ih n (create w).2 (c + 1)
        (fun j hj => hnull (j + 1) (Nat.succ_lt_succ hj)) hsome
      refine ⟨p, ?_⟩
      simp only [Proxy.new] at hp
      simp only [Proxy.GetObjectTimes, Proxy.GetObject, Proxy.new, counted, h0, hp]
      simp [List.replicate_succ, afterInvocations, Nat.succ_min_succ, Nat.add_assoc,
        Nat.add_comm 1]

/-- C18: when the first `k` invocations of the creation method return null and
the next one returns the object `o`, then over `n` calls of `GetObject()` the
first `min n k` calls return null and cache nothing, each of them (and the call
after them) invoking the creation method, the remaining `n - k` calls return
`o`, and the creation method has been invoked `min n (k + 1)` times in all:
once per call up to and including the first non-null result, never after. -/
theorem C18_proxy_retries_until_created {T W : Type} (create : W → Option T × W) (o : T)
    (k n : Nat) (w : W)
    (hnull : ∀ j, j < k → (create (afterInvocations create j w)).1 = none)
    (hsome : (create (afterInvocations create k w)).1 = some o) :
    ∃ p, Proxy.GetObjectTimes n (Proxy.new (some (counted create))) (w, 0)
      = .ok (List.replicate (min n k) none ++ List.replicate (n - k) (some o), p,
          (afterInvocations create (min n (k + 1)) w, min n (k + 1))) := by
  have h := GetObjectTimes_until_created create o k n w 0 hnull hsome
  simpa using h

/-- Witness for C18: a creation method that fails twice and then makes object
`7`, called five times through the proxy. -/
theorem C18_proxy_retries_until_created_witness :
    ∃ p, Proxy.GetObjectTimes 5
        (Proxy.new (some (counted (fun i : Nat => (if i < 2 then none else some 7, i + 1)))))
        (0, 0)
      = .ok (List.replicate (min 5 2) none ++ List.replicate (5 - 2) (some 7), p,
          (afterInvocations (fun i : Nat => (if i < 2 then none else some 7, i + 1))
            (min 5 (2 + 1)) 0, min 5 (2 + 1))) :=
  C18_proxy_retries_until_created (fun i : Nat => (if i < 2 then none else some 7, i + 1)) 7 2 5 0
    (by intro j hj; interval_cases j <;> simp [afterInvocations])
    (by simp [afterInvocations])

end proxy

end patterns
